import Mathlib

/-!
Verification of the URL-shortener core (Go sources) via a shallow embedding.

Modelling conventions:
* Go strings are Lean `String`s at the service layer and `List Char` inside the
  code generator and the URL normalizer (Go strings are byte arrays; all data
  relevant here is ASCII, where bytes and characters coincide).
* `time.Time` is a `Nat` tick count; `time.Now()` is an explicit `now`
  parameter.  `AddDate(0, 0, d)` is modelled as adding `d * 86400` ticks.
* Go `uint` arithmetic in `Decode` wraps modulo `2 ^ 64`; the wrap is written
  explicitly.  Other integer fields (click counts, ids) never overflow on the
  paths proved here and are modelled as `Nat`; `int`-typed configuration values
  are `Int`.
* The store is the list of rows of the `urls` table in insertion (primary-key)
  order; GORM's `First` is `List.find?`.  Per the schema
  (`CREATE TABLE urls ... short_code VARCHAR(12) NOT NULL UNIQUE` and the GORM
  `uniqueIndex` tag) the uniqueness constraint on `short_code` is global, i.e.
  not restricted to `is_active = true` rows.
* The cache is an association list; `Set` prepends, `Get` takes the first
  binding.  Cache and store I/O never fail in the model (infrastructure errors
  are out of scope of the claims proved here); the fire-and-forget goroutine
  that increments the click count on a cache hit is sequentialized.
-/

deriving instance DecidableEq for Except

namespace UrlShortener

/-! ## Code generator (shortener package) -/

/-- The fixed base62 alphabet `0-9 A-Z a-z`. -/
def base62Chars : List Char :=
  "0123456789ABCDEFGHIJKLMNOPQRSTUVWXYZabcdefghijklmnopqrstuvwxyz".toList

structure CodeGenerator where
  length : Nat
deriving DecidableEq

/-- `NewCodeGenerator`: lengths below 4 fall back to 6 (the "minimum safe
length"); lengths above 12 are capped at 12. -/
def NewCodeGenerator (length : Int) : CodeGenerator :=
  if length < 4 then ⟨6⟩
  else if length > 12 then ⟨12⟩
  else ⟨length.toNat⟩

/-- Indexing into the base62 alphabet (`base62Chars[i]`); indices are always
`< 62` at every use site. -/
def base62Get (n : Nat) : Char :=
  base62Chars.getD n '0'

/-- `Generate`: one alphabet character per position.  The random source
(`crypto/rand`, with the `i % 62` fallback on failure) is abstracted as an
oracle `randoms`; every value it can produce is an index `< 62`. -/
def Generate (g : CodeGenerator) (randoms : Nat → Fin 62) : List Char :=
  (List.range g.length).map fun i => base62Get (randoms i).val

/-- The loop `for num > 0 { remainder := num % 62; prepend; num /= 62 }` of
`GenerateFromID`, with an explicit iteration budget (the loop runs at most
`n` times because the value strictly shrinks; `toB62` instantiates the budget
accordingly, and `toB62Fuel_eq_digits` shows the budget never runs out). -/
def toB62Fuel : Nat → Nat → List Nat
  | 0, _ => []
  | fuel + 1, n => if n = 0 then [] else toB62Fuel fuel (n / 62) ++ [n % 62]

/-- The base-62 digit string of `n`, most significant digit first. -/
def toB62 (n : Nat) : List Nat :=
  toB62Fuel n n

/-- `GenerateFromID`: `id = 0` returns the single character
`base62Chars[0]` (the early-return branch); otherwise the base-62 digits are
left-padded with `base62Chars[0]` up to the configured length. -/
def GenerateFromID (g : CodeGenerator) (id : Nat) : List Char :=
  if id = 0 then [base62Get 0]
  else
    let digits := (toB62 id).map base62Get
    List.replicate (g.length - digits.length) (base62Get 0) ++ digits

/-- The `switch` of `Decode`: digit value of a character, `none` for
characters outside the alphabet (the `continue` branch). -/
def decodeCharVal (c : Char) : Option Nat :=
  if '0' ≤ c ∧ c ≤ '9' then some (c.toNat - '0'.toNat)
  else if 'A' ≤ c ∧ c ≤ 'Z' then some (c.toNat - 'A'.toNat + 10)
  else if 'a' ≤ c ∧ c ≤ 'z' then some (c.toNat - 'a'.toNat + 36)
  else none

/-- Go `uint` modulus. -/
def uintMod : Nat := 2 ^ 64

/-- One iteration of `Decode`: `result = result*62 + value` in wrapping Go
`uint` arithmetic, with invalid characters skipped (`continue`). -/
def decodeStep (result : Nat) (c : Char) : Nat :=
  match decodeCharVal c with
  | some v => (result * 62 + v) % uintMod
  | none => result

/-- `Decode`: fold the step over the code, starting from 0. -/
def Decode (code : List Char) : Nat :=
  code.foldl decodeStep 0

/-- The generator's `IsValid`: nonempty, at most the configured length, and
every character drawn from the base62 alphabet. -/
def IsValid (g : CodeGenerator) (code : List Char) : Bool :=
  if code.length = 0 ∨ code.length > g.length then false
  else code.all fun c => base62Chars.contains c

/-! ## Validator package (pkg/validator) -/

/-- One character of the short-code regex `[a-zA-Z0-9_-]`. -/
def isShortCodeChar (c : Char) : Bool :=
  ('a' ≤ c && c ≤ 'z') || ('A' ≤ c && c ≤ 'Z') || ('0' ≤ c && c ≤ '9') ||
    c == '_' || c == '-'

/-- `validator.ValidateShortCode`: length between 2 and 50 and the regex
`^[a-zA-Z0-9_-]+$`. -/
def ValidateShortCode (code : String) : Bool :=
  if code.length < 2 ∨ code.length > 50 then false
  else code.toList.all isShortCodeChar

/-! ## Domain model -/

/-- The error outcomes the service layer distinguishes.  `genExhausted` is the
`fmt.Errorf("failed to generate unique short code after %d attempts", ...)`
error (surfaced by `ShortenURL` wrapped as an internal error). -/
inductive SvcErr where
  | validationError
  | notFound
  | expired
  | codeTaken
  | genExhausted
  | internalError
deriving DecidableEq

/-- A row of the `urls` table (`domain.URL`). -/
structure URL where
  id : Nat
  shortCode : String
  originalURL : String
  createdAt : Nat
  expiresAt : Option Nat
  clickCount : Nat
  lastAccessAt : Option Nat
  creatorIP : String
  isActive : Bool
  customAlias : Bool
deriving DecidableEq

/-- `URL.IsExpired`: `ExpiresAt != nil && time.Now().After(*ExpiresAt)` —
strictly later than the stored instant. -/
def URL.IsExpired (u : URL) (now : Nat) : Bool :=
  match u.expiresAt with
  | none => false
  | some t => now > t

/-! ## Repository (internal/repository/postgres), store = list of rows -/

/-- `Create`: insert, subject to the schema's **global** `UNIQUE` constraint on
`short_code` (it is not a partial index on `is_active = true`).  The
repository has an `errors.Is(result.Error, gorm.ErrDuplicatedKey)` branch that
would surface the duplicate as `ErrShortCodeTaken`, but `main.go` opens GORM
without `TranslateError`, so the Postgres 23505 unique-violation error is
never translated to `gorm.ErrDuplicatedKey`: that branch never fires, and a
duplicate key reaches the caller as `domain.NewInternalError`. -/
def Create (db : List URL) (u : URL) : Except SvcErr (List URL) :=
  if db.any (fun r => r.shortCode == u.shortCode) then .error .internalError
  else .ok (db ++ [u])

/-- `FindByShortCode`: first row with `short_code = ? AND is_active = true`,
else `ErrURLNotFound`. -/
def FindByShortCode (db : List URL) (shortCode : String) : Except SvcErr URL :=
  match db.find? (fun r => r.shortCode == shortCode && r.isActive) with
  | some u => .ok u
  | none => .error .notFound

/-- `FindByOriginalURL`: first row with `original_url = ? AND is_active = true`,
else `ErrURLNotFound`. -/
def FindByOriginalURL (db : List URL) (originalURL : String) : Except SvcErr URL :=
  match db.find? (fun r => r.originalURL == originalURL && r.isActive) with
  | some u => .ok u
  | none => .error .notFound

/-- `ExistsByShortCode`: `COUNT(*) > 0` over `short_code = ? AND
is_active = true`. -/
def ExistsByShortCode (db : List URL) (shortCode : String) : Bool :=
  db.any fun r => r.shortCode == shortCode && r.isActive

/-- `IncrementClickCount`: blind
`UPDATE ... SET click_count = click_count + 1, last_access_at = now WHERE
short_code = ? AND is_active = true`; when `RowsAffected = 0` it returns
`ErrURLNotFound`.  The result pairs the returned error with the store after
the statement. -/
def IncrementClickCount (db : List URL) (shortCode : String) (now : Nat) :
    Except SvcErr Unit × List URL :=
  if db.any (fun r => r.shortCode == shortCode && r.isActive) then
    (.ok (),
      db.map fun r =>
        if r.shortCode == shortCode && r.isActive then
          { r with clickCount := r.clickCount + 1, lastAccessAt := some now }
        else r)
  else (.error .notFound, db)

/-! ## Cache (internal/cache), as an association list -/

abbrev Cache := List (String × String)

/-- `cache.Get`: first binding for the key; `none` covers both absence and a
cache error (the service treats the two identically). -/
def cacheGet (c : Cache) (key : String) : Option String :=
  (c.find? fun p => p.1 == key).map fun p => p.2

/-- `cache.Set`: bind the key (newest binding wins). -/
def cacheSet (c : Cache) (key value : String) : Cache :=
  (key, value) :: c

/-! ## Service layer (internal/service/url_service_impl.go) -/

/-- The configuration fields the service reads. -/
structure Config where
  baseURL : String
  urlExpirationDays : Int
deriving DecidableEq

structure CreateURLRequest where
  url : String
  customAlias : String
  expiryDays : Int
deriving DecidableEq

structure CreateURLResponse where
  shortCode : String
  shortURL : String
  originalURL : String
  createdAt : Nat
  expiresAt : Option Nat
deriving DecidableEq

/-- `buildResponse`. -/
def buildResponse (cfg : Config) (u : URL) : CreateURLResponse :=
  { shortCode := u.shortCode
    shortURL := cfg.baseURL ++ "/" ++ u.shortCode
    originalURL := u.originalURL
    createdAt := u.createdAt
    expiresAt := u.expiresAt }

/-- `time.Now().AddDate(0, 0, d)` as a tick offset. -/
def daysToDur (d : Int) : Nat :=
  d.toNat * 86400

/-- Step 5 of `ShortenURL`: request override, else configured default, else
never expires. -/
def resolveExpiry (cfg : Config) (req : CreateURLRequest) (now : Nat) : Option Nat :=
  if req.expiryDays > 0 then some (now + daysToDur req.expiryDays)
  else if cfg.urlExpirationDays > 0 then some (now + daysToDur cfg.urlExpirationDays)
  else none

/-- Step 6 of `ShortenURL`: the entity handed to `repo.Create` (`CreatedAt`
is stamped by the store; the id is the next serial). -/
def newURL (cfg : Config) (req : CreateURLRequest) (db : List URL)
    (shortCode normalizedURL clientIP : String) (now : Nat) : URL :=
  { id := db.length + 1
    shortCode := shortCode
    originalURL := normalizedURL
    createdAt := now
    expiresAt := resolveExpiry cfg req now
    clickCount := 0
    lastAccessAt := none
    creatorIP := clientIP
    isActive := true
    customAlias := req.customAlias ≠ "" }

/-- The loop body of `generateUniqueShortCode`: `i` is the next index into the
candidate oracle, the second argument the remaining retries. -/
def genCodeAux (db : List URL) (gen : Nat → String) : Nat → Nat → Except SvcErr String
  | _, 0 => .error .genExhausted
  | i, fuel + 1 =>
    if ExistsByShortCode db (gen i) then genCodeAux db gen (i + 1) fuel
    else .ok (gen i)

/-- `generateUniqueShortCode`: up to `maxRetries = 5` candidates from the
generator (abstracted as the oracle `gen`, candidate `i` being `gen i`); a
candidate whose active-scoped existence check fails is returned, otherwise the
generation-exhausted error. -/
def generateUniqueShortCode (db : List URL) (gen : Nat → String) : Except SvcErr String :=
  genCodeAux db gen 0 5

/-- Step 4 of `ShortenURL`: the short code to use — custom alias validation
and availability when one is supplied, collision-retrying generation
otherwise. -/
def resolveShortCode (gen : Nat → String) (db : List URL)
    (req : CreateURLRequest) : Except SvcErr String :=
  if req.customAlias ≠ "" then
    if ¬ ValidateShortCode req.customAlias then .error .validationError
    else if ExistsByShortCode db req.customAlias then .error .codeTaken
    else .ok req.customAlias
  else generateUniqueShortCode db gen

/-- Steps 5-8 of `ShortenURL`: expiry resolution, store insert (aborting on
its error), best-effort cache seed. -/
def shortenFinish (cfg : Config) (db : List URL) (cache : Cache)
    (req : CreateURLRequest) (normalizedURL clientIP : String) (now : Nat)
    (shortCode : String) :
    Except SvcErr CreateURLResponse × List URL × Cache :=
  match Create db (newURL cfg req db shortCode normalizedURL clientIP now) with
  | .error e => (.error e, db, cache)
  | .ok db' =>
    (.ok (buildResponse cfg (newURL cfg req db shortCode normalizedURL clientIP now)),
      db', cacheSet cache shortCode normalizedURL)

/-- Steps 4-8 of `ShortenURL`, after validation and deduplication. -/
def shortenAfterDedup (cfg : Config) (gen : Nat → String) (db : List URL)
    (cache : Cache) (req : CreateURLRequest)
    (normalizedURL clientIP : String) (now : Nat) :
    Except SvcErr CreateURLResponse × List URL × Cache :=
  match resolveShortCode gen db req with
  | .error e => (.error e, db, cache)
  | .ok shortCode => shortenFinish cfg db cache req normalizedURL clientIP now shortCode

/-- `ShortenURL`.  URL validation and normalization are performed by the
external validator collaborator (spec §1 treats it as pre-validation /
pre-normalization), abstracted as the parameters `validateURL` and
`normalizeURL`.  Dedup (step 3) uses the existing row only when the lookup
succeeded and the row is unexpired; otherwise the flow falls through. -/
def ShortenURL (validateURL : String → Bool) (normalizeURL : String → String)
    (cfg : Config) (gen : Nat → String) (db : List URL) (cache : Cache)
    (req : CreateURLRequest) (clientIP : String) (now : Nat) :
    Except SvcErr CreateURLResponse × List URL × Cache :=
  if validateURL req.url then
    match FindByOriginalURL db (normalizeURL req.url) with
    | .ok existing =>
      if existing.IsExpired now then
        shortenAfterDedup cfg gen db cache req (normalizeURL req.url) clientIP now
      else (.ok (buildResponse cfg existing), db, cache)
    | .error _ =>
      shortenAfterDedup cfg gen db cache req (normalizeURL req.url) clientIP now
  else (.error .validationError, db, cache)

/-- Steps 2-5 of `GetOriginalURL` (the cache-miss continuation): store lookup,
expiry check, synchronous click accounting (its error is logged and ignored),
cache repopulation. -/
def getFromStore (db : List URL) (cache : Cache) (shortCode : String) (now : Nat) :
    Except SvcErr String × List URL × Cache :=
  match FindByShortCode db shortCode with
  | .error e => (.error e, db, cache)
  | .ok url =>
    if url.IsExpired now then (.error .expired, db, cache)
    else
      (.ok url.originalURL,
        (IncrementClickCount db shortCode now).2,
        cacheSet cache shortCode url.originalURL)

/-- `GetOriginalURL` (the resolver).  A cache hit is a non-empty value with no
cache error; the fire-and-forget click-accounting goroutine of the hit path is
sequentialized (its outcome never reaches the response). -/
def GetOriginalURL (db : List URL) (cache : Cache) (shortCode : String) (now : Nat) :
    Except SvcErr String × List URL × Cache :=
  match cacheGet cache shortCode with
  | some v =>
    if v = "" then getFromStore db cache shortCode now
    else (.ok v, (IncrementClickCount db shortCode now).2, cache)
  | none => getFromStore db cache shortCode now

/-- The deduplication lookup of `ShortenURL` does not return an existing row:
either no active row matches the target, or the first one that does is
expired. -/
def DedupMiss (db : List URL) (normalizedURL : String) (now : Nat) : Prop :=
  ∀ u, FindByOriginalURL db normalizedURL = .ok u → u.IsExpired now = true

/-! ## URL normalizer (validator.NormalizeURL)

`NormalizeURL` delegates parsing and serialization to Go's standard `net/url`
package, which is outside this repository.  The model below reproduces
`url.Parse` / `URL.String` on the plain ASCII fragment
`scheme "://" host path` (letter-only scheme, nonempty host over
`[A-Za-z0-9.-]`, path over `[A-Za-z0-9/._~-]`, no userinfo / port / query /
fragment / percent-escapes); on that fragment both functions are literal
splitting and concatenation.  Inputs outside the fragment take the
parse-failure branch of the model (return the input unchanged), standing in
for `net/url` behavior that is not modelled. -/

/-- ASCII uppercase alphabet. -/
def upperChars : List Char := "ABCDEFGHIJKLMNOPQRSTUVWXYZ".toList

/-- ASCII lowercase alphabet. -/
def lowerChars : List Char := "abcdefghijklmnopqrstuvwxyz".toList

/-- Pairing of uppercase and lowercase ASCII letters. -/
def lowerTable : List (Char × Char) := upperChars.zip lowerChars

/-- `strings.ToLower` on one ASCII character. -/
def toLowerChar (c : Char) : Char :=
  match lowerTable.find? (fun p => p.1 == c) with
  | some p => p.2
  | none => c

/-- `strings.ToLower` on an ASCII string. -/
def strToLower (l : List Char) : List Char := l.map toLowerChar

/-- Scheme alphabet of the modelled fragment. -/
def isSchemeChar (c : Char) : Bool :=
  ('a' ≤ c && c ≤ 'z') || ('A' ≤ c && c ≤ 'Z')

/-- Host alphabet of the modelled fragment. -/
def isHostChar (c : Char) : Bool :=
  ('a' ≤ c && c ≤ 'z') || ('A' ≤ c && c ≤ 'Z') || ('0' ≤ c && c ≤ '9') ||
    c == '.' || c == '-'

/-- Path alphabet of the modelled fragment. -/
def isPathChar (c : Char) : Bool :=
  ('a' ≤ c && c ≤ 'z') || ('A' ≤ c && c ≤ 'Z') || ('0' ≤ c && c ≤ '9') ||
    c == '/' || c == '-' || c == '_' || c == '.' || c == '~'

/-- Split a string at the first occurrence of `"://"` (`none` when the
separator does not occur; `(splitSchemeSep l).isSome` is
`strings.Contains(l, "://")`). -/
def splitSchemeSep : List Char → Option (List Char × List Char)
  | [] => none
  | c :: rest =>
    if c = ':' ∧ rest.take 2 = ['/', '/'] then some ([], rest.drop 2)
    else (splitSchemeSep rest).map fun p => (c :: p.1, p.2)

/-- `url.Parse` on the modelled fragment: scheme before the first `"://"`,
host up to the next `/`, path the rest. -/
def parseSimple (raw : List Char) : Option (List Char × List Char × List Char) :=
  match splitSchemeSep raw with
  | none => none
  | some (scheme, rest) =>
    if scheme ≠ [] ∧ scheme.all isSchemeChar ∧
        (rest.takeWhile fun c => c ≠ '/') ≠ [] ∧
        (rest.takeWhile fun c => c ≠ '/').all isHostChar ∧
        (rest.dropWhile fun c => c ≠ '/').all isPathChar then
      some (scheme, rest.takeWhile fun c => c ≠ '/', rest.dropWhile fun c => c ≠ '/')
    else none

/-- `strings.TrimSuffix(path, "/")`: drop one trailing slash, if present. -/
def trimSlashSuffix (p : List Char) : List Char :=
  if p.getLast? = some '/' then p.dropLast else p

/-- The `"://"` separator. -/
def schemeSep : List Char := [':', '/', '/']

/-- The `"https://"` prepended when the input has no scheme separator. -/
def httpsPre : List Char := "https://".toList

/-- Step 1 of `NormalizeURL`: prepend `https://` when the input contains no
`"://"`. -/
def withScheme (raw : List Char) : List Char :=
  if (splitSchemeSep raw).isSome then raw else httpsPre ++ raw

/-- `validator.NormalizeURL`: prepend `https://` when `"://"` is absent,
parse (returning the input unchanged on failure), lowercase scheme and host,
drop one trailing slash from the path, and serialize. -/
def NormalizeURL (raw : List Char) : List Char :=
  match parseSimple (withScheme raw) with
  | none => withScheme raw
  | some (scheme, host, path) =>
    strToLower scheme ++ schemeSep ++ strToLower host ++ trimSlashSuffix path

/-! ## Spec-side definitions and concrete sample inputs -/

/-- The spec's phrase "`n` clamped into the interval `[4,12]`", read as the
nearest point of the interval. -/
def specClampLen (n : Int) : Int := max 4 (min 12 n)

/-- Sample configuration: no default expiration. -/
def cfg0 : Config := { baseURL := "http://sho.rt", urlExpirationDays := 0 }

/-- An active row that expired at tick 10. -/
def rExpired : URL :=
  { id := 1, shortCode := "abc123", originalURL := "https://ex.example/a",
    createdAt := 0, expiresAt := some 10, clickCount := 0, lastAccessAt := none,
    creatorIP := "1.2.3.4", isActive := true, customAlias := false }

/-- A soft-deleted (inactive) row. -/
def rInactive : URL :=
  { id := 2, shortCode := "gone42", originalURL := "https://ex.example/b",
    createdAt := 0, expiresAt := none, clickCount := 7, lastAccessAt := some 3,
    creatorIP := "", isActive := false, customAlias := false }

/-- An inactive row owning the custom code `"mycode"`. -/
def rOldInactive : URL :=
  { id := 1, shortCode := "mycode", originalURL := "https://old.example/x",
    createdAt := 0, expiresAt := none, clickCount := 3, lastAccessAt := none,
    creatorIP := "", isActive := false, customAlias := true }

/-- A shorten request that supplies the custom code `"mycode"`. -/
def reqCustom : CreateURLRequest :=
  { url := "https://new.example/y", customAlias := "mycode", expiryDays := 0 }

/-- An active row for target `https://t.example/p` that expired at tick 10. -/
def rExpAct : URL :=
  { id := 1, shortCode := "aaaa11", originalURL := "https://t.example/p",
    createdAt := 0, expiresAt := some 10, clickCount := 0, lastAccessAt := none,
    creatorIP := "", isActive := true, customAlias := false }

/-- An active, never-expiring row for the same target `https://t.example/p`. -/
def rLiveAct : URL :=
  { id := 2, shortCode := "bbbb22", originalURL := "https://t.example/p",
    createdAt := 5, expiresAt := none, clickCount := 0, lastAccessAt := none,
    creatorIP := "", isActive := true, customAlias := false }

/-- A shorten request for the already-shortened target. -/
def reqDup : CreateURLRequest :=
  { url := "https://t.example/p", customAlias := "", expiryDays := 0 }

/-- An active row occupying the generated candidate `"AAAA11"`. -/
def rColl : URL :=
  { id := 1, shortCode := "AAAA11", originalURL := "https://c.example/1",
    createdAt := 0, expiresAt := none, clickCount := 0, lastAccessAt := none,
    creatorIP := "", isActive := true, customAlias := false }

/-- A shorten request with no custom code for a fresh target. -/
def reqGen : CreateURLRequest :=
  { url := "https://fresh.example/z", customAlias := "", expiryDays := 0 }

/-- Candidate oracle whose first candidate collides with `rColl`. -/
def genA : Nat → String := fun i => if i = 0 then "AAAA11" else "BBBB22"

/-- Candidate oracle all of whose candidates collide with `rColl`. -/
def genB : Nat → String := fun _ => "AAAA11"

/-- A shorten request whose custom code contains a hyphen. -/
def reqAlias : CreateURLRequest :=
  { url := "https://six.example/a", customAlias := "my-link", expiryDays := 0 }

/-- A shorten request whose custom code contains an underscore. -/
def reqGood : CreateURLRequest :=
  { url := "https://ok.example/b", customAlias := "good_one", expiryDays := 0 }

/-! ## Code generator: lengths, alphabet, round trip (C5, C9, C8) -/

lemma base62Get_mem : ∀ d : Fin 62, base62Get d.val ∈ base62Chars := by decide

lemma NewCodeGenerator_length (n : Int) :
    (NewCodeGenerator n).length = if n < 4 then 6 else if n > 12 then 12 else n.toNat := by
  unfold NewCodeGenerator
  split_ifs <;> rfl

/-- C5 counterexample: at configured length 3 the generator produces codes of
length 6, not of length `clamp 3 [4,12] = 4`. -/
theorem c5_counterexample :
    ((Generate (NewCodeGenerator 3) fun _ => (0 : Fin 62)).length : Int) ≠ specClampLen 3 := by
  decide

/-- C5 (amended): every generated code has the generator's configured length,
which is `n` when `n ∈ [4,12]`, 6 when `n < 4`, and 12 when `n > 12` — always
within `[4,12]` — and every character of the code is drawn from the 62-symbol
base62 alphabet. -/
theorem c5_generate_length_and_charset (n : Int) (randoms : Nat → Fin 62) :
    (Generate (NewCodeGenerator n) randoms).length = (NewCodeGenerator n).length ∧
    4 ≤ (NewCodeGenerator n).length ∧ (NewCodeGenerator n).length ≤ 12 ∧
    (n < 4 → (NewCodeGenerator n).length = 6) ∧
    (4 ≤ n → n ≤ 12 → ((NewCodeGenerator n).length : Int) = n) ∧
    (12 < n → (NewCodeGenerator n).length = 12) ∧
    ∀ c ∈ Generate (NewCodeGenerator n) randoms, c ∈ base62Chars := by
  refine ⟨by simp [Generate], ?_, ?_, ?_, ?_, ?_, ?_⟩
  · rw [NewCodeGenerator_length]; split_ifs <;> omega
  · rw [NewCodeGenerator_length]; split_ifs <;> omega
  · intro h; rw [NewCodeGenerator_length, if_pos h]
  · intro h1 h2
    rw [NewCodeGenerator_length, if_neg (by omega), if_neg (by omega)]
    omega
  · intro h; rw [NewCodeGenerator_length, if_neg (by omega), if_pos h]
  · intro c hc
    simp only [Generate, List.mem_map, List.mem_range] at hc
    obtain ⟨i, _, rfl⟩ := hc
    exact base62Get_mem _

theorem c5_witness :
    ((NewCodeGenerator 5).length : Int) = 5 ∧
    (Generate (NewCodeGenerator 5) fun _ => (37 : Fin 62)).length = (NewCodeGenerator 5).length :=
  ⟨(c5_generate_length_and_charset 5 fun _ => (37 : Fin 62)).2.2.2.2.1 (by decide) (by decide),
   (c5_generate_length_and_charset 5 fun _ => (37 : Fin 62)).1⟩

/-- C9 counterexample: `GenerateFromID` at `id = 0` takes the early-return
branch and yields the single character `"0"` — length 1, not the configured
length 6. -/
theorem c9_counterexample :
    (GenerateFromID (NewCodeGenerator 6) 0).length = 1 ∧
    (NewCodeGenerator 6).length = 6 ∧
    (GenerateFromID (NewCodeGenerator 6) 0).length ≠ (NewCodeGenerator 6).length := by
  decide

/-- C9 (amended): for every `id ≥ 1` whose base-62 digit string is no longer
than the configured length, `GenerateFromID` left-pads with the zero symbol to
exactly the configured length; `id = 0` is the exception, returning the
single-character string `"0"`. -/
theorem c9_fromid_left_padded (n : Int) (id : Nat) (h1 : 1 ≤ id)
    (h2 : (toB62 id).length ≤ (NewCodeGenerator n).length) :
    (GenerateFromID (NewCodeGenerator n) id).length = (NewCodeGenerator n).length ∧
    GenerateFromID (NewCodeGenerator n) 0 = [base62Get 0] := by
  constructor
  · simp only [GenerateFromID, if_neg (by omega : ¬ id = 0)]
    simp only [List.length_append, List.length_replicate, List.length_map]
    omega
  · rfl

theorem c9_witness :
    (toB62 5).length ≤ (NewCodeGenerator 6).length ∧
    (GenerateFromID (NewCodeGenerator 6) 5).length = (NewCodeGenerator 6).length :=
  ⟨by decide, (c9_fromid_left_padded 6 5 (by decide) (by decide)).1⟩

lemma toB62Fuel_eq_digits : ∀ fuel n : Nat, n ≤ fuel →
    toB62Fuel fuel n = (Nat.digits 62 n).reverse := by
  intro fuel
  induction fuel with
  | zero =>
    intro n hn
    have h0 : n = 0 := by omega
    subst h0
    simp [toB62Fuel]
  | succ f ih =>
    intro n hn
    by_cases h0 : n = 0
    · subst h0; simp [toB62Fuel]
    · rw [show toB62Fuel (f + 1) n = toB62Fuel f (n / 62) ++ [n % 62] by
        simp [toB62Fuel, h0]]
      have hdiv : n / 62 ≤ f :=
        Nat.le_of_lt_succ (Nat.lt_of_lt_of_le
          (Nat.div_lt_self (Nat.pos_of_ne_zero h0) (by norm_num)) hn)
      rw [ih (n / 62) hdiv,
        Nat.digits_def' (by norm_num : (1 : ℕ) < 62) (Nat.pos_of_ne_zero h0)]
      simp

lemma toB62_eq_digits (n : Nat) : toB62 n = (Nat.digits 62 n).reverse :=
  toB62Fuel_eq_digits n n le_rfl

lemma toB62_lt (n : Nat) : ∀ d ∈ toB62 n, d < 62 := by
  intro d hd
  rw [toB62_eq_digits, List.mem_reverse] at hd
  exact Nat.digits_lt_base (by norm_num) hd

lemma decodeCharVal_base62Get : ∀ d : Fin 62, decodeCharVal (base62Get d.val) = some d.val := by
  decide

lemma decodeStep_digit (acc d : Nat) (hd : d < 62) :
    decodeStep acc (base62Get d) = (acc * 62 + d) % uintMod := by
  have h := decodeCharVal_base62Get ⟨d, hd⟩
  simp only [decodeStep, h]

lemma foldl_decode_digits :
    ∀ (ds : List Nat) (acc : Nat), (∀ d ∈ ds, d < 62) →
      acc * 62 ^ ds.length + Nat.ofDigits 62 ds.reverse < uintMod →
      List.foldl decodeStep acc (ds.map base62Get) =
        acc * 62 ^ ds.length + Nat.ofDigits 62 ds.reverse := by
  intro ds
  induction ds with
  | nil => intro acc _ _; simp
  | cons d rest ih =>
    intro acc hall hbound
    have hd : d < 62 := hall d (List.mem_cons_self _ _)
    have htot : acc * 62 ^ (d :: rest).length + Nat.ofDigits 62 (d :: rest).reverse =
        (acc * 62 + d) * 62 ^ rest.length + Nat.ofDigits 62 rest.reverse := by
      rw [List.reverse_cons, Nat.ofDigits_append]
      simp only [List.length_cons, List.length_reverse, Nat.ofDigits_singleton]
      ring
    have hstep_lt : acc * 62 + d < uintMod := by
      have h1 : acc * 62 + d ≤ (acc * 62 + d) * 62 ^ rest.length :=
        Nat.le_mul_of_pos_right _ (pow_pos (by norm_num) _)
      have h2 : (acc * 62 + d) * 62 ^ rest.length ≤
          (acc * 62 + d) * 62 ^ rest.length + Nat.ofDigits 62 rest.reverse :=
        Nat.le_add_right _ _
      rw [htot] at hbound
      omega
    simp only [List.map_cons, List.foldl_cons]
    rw [decodeStep_digit acc d hd, Nat.mod_eq_of_lt hstep_lt, htot]
    exact ih (acc * 62 + d) (fun x hx => hall x (List.mem_cons_of_mem _ hx))
      (htot ▸ hbound)

lemma foldl_decode_zeros (k : Nat) :
    List.foldl decodeStep 0 (List.replicate k (base62Get 0)) = 0 := by
  induction k with
  | zero => rfl
  | succ m ih =>
    rw [List.replicate_succ, List.foldl_cons,
      show decodeStep 0 (base62Get 0) = 0 by decide]
    exact ih

/-- C8: for every id in Go `uint` range, `Decode` inverts `GenerateFromID` —
the deterministic encoding is injective (collision-free by construction). -/
theorem c8_decode_inverts_fromid (g : CodeGenerator) (id : Nat) (h : id < uintMod) :
    Decode (GenerateFromID g id) = id := by
  by_cases h0 : id = 0
  · subst h0
    rw [show GenerateFromID g 0 = [base62Get 0] from rfl]
    decide
  · have hofd : Nat.ofDigits 62 (toB62 id).reverse = id := by
      rw [toB62_eq_digits, List.reverse_reverse, Nat.ofDigits_digits]
    simp only [GenerateFromID, if_neg h0]
    rw [Decode, List.foldl_append, foldl_decode_zeros,
      foldl_decode_digits (toB62 id) 0 (toB62_lt id) (by simpa [hofd] using h)]
    simpa using hofd

theorem c8_witness : 123456 < uintMod ∧ Decode (GenerateFromID ⟨6⟩ 123456) = 123456 :=
  ⟨by decide, c8_decode_inverts_fromid ⟨6⟩ 123456 (by decide)⟩

/-! ## Resolver and click accounting (C2, C7) -/

/-- C2: on a cache miss, resolving a code whose stored active record expired
strictly before `now` fails with the `Expired` error (never `NotFound`),
writes no cache entry for the code, and leaves the store untouched. -/
theorem c2_expired_resolve (db : List URL) (cache : Cache) (shortCode : String)
    (now t : Nat) (u : URL)
    (hmiss : cacheGet cache shortCode = none ∨ cacheGet cache shortCode = some "")
    (hfind : FindByShortCode db shortCode = .ok u)
    (hexp : u.expiresAt = some t) (ht : t < now) :
    GetOriginalURL db cache shortCode now = (.error .expired, db, cache) := by
  have hexpired : u.IsExpired now = true := by
    rw [URL.IsExpired, hexp]
    simpa using ht
  have hstore : getFromStore db cache shortCode now = (.error .expired, db, cache) := by
    simp only [getFromStore]
    rw [hfind]
    simp [hexpired]
  rcases hmiss with h | h
  · simp only [GetOriginalURL]
    rw [h]
    exact hstore
  · simp only [GetOriginalURL]
    rw [h]
    simpa using hstore

theorem c2_witness :
    GetOriginalURL [rExpired] [] "abc123" 100 = (.error .expired, [rExpired], []) :=
  c2_expired_resolve [rExpired] [] "abc123" 100 10 rExpired (Or.inl rfl) rfl rfl
    (by omega)

/-- C7 counterexample: incrementing the click count of a code owned only by
an inactive row updates no row, but returns the `ErrURLNotFound` error rather
than success. -/
theorem c7_counterexample :
    IncrementClickCount [rInactive] "gone42" 50 = (.error .notFound, [rInactive]) ∧
    (Except.error SvcErr.notFound : Except SvcErr Unit) ≠ .ok () := by
  exact ⟨rfl, by decide⟩

/-- C7 (amended): `IncrementClickCount` on a code none of whose rows is
active updates no row and never reactivates or mutates the inactive record
(the store is returned unchanged), but it reports `ErrURLNotFound` rather
than success (`RowsAffected == 0` is surfaced as an error). -/
theorem c7_inactive_noop (db : List URL) (shortCode : String) (now : Nat)
    (_howner : ∃ r ∈ db, r.shortCode = shortCode)
    (hinactive : ∀ r ∈ db, r.shortCode = shortCode → r.isActive = false) :
    IncrementClickCount db shortCode now = (.error .notFound, db) := by
  have hany : db.any (fun r => r.shortCode == shortCode && r.isActive) = false := by
    rw [List.any_eq_false]
    intro r hr
    by_cases hc : r.shortCode = shortCode
    · simp [hc, hinactive r hr hc]
    · simp [hc]
  simp [IncrementClickCount, hany]

theorem c7_witness :
    IncrementClickCount [rInactive] "gone42" 7 = (.error .notFound, [rInactive]) :=
  c7_inactive_noop [rInactive] "gone42" 7 (by decide) (by decide)

/-! ## Shorten path: shared lemmas -/

lemma dedupMiss_of_error {db : List URL} {target : String} {now : Nat} {e : SvcErr}
    (h : FindByOriginalURL db target = .error e) : DedupMiss db target now := by
  intro u hu
  rw [h] at hu
  exact Except.noConfusion hu

lemma ShortenURL_dedupMiss {validateURL : String → Bool}
    {normalizeURL : String → String} {cfg : Config} {gen : Nat → String}
    {db : List URL} {cache : Cache} {req : CreateURLRequest}
    {clientIP : String} {now : Nat}
    (hv : validateURL req.url = true)
    (hdedup : DedupMiss db (normalizeURL req.url) now) :
    ShortenURL validateURL normalizeURL cfg gen db cache req clientIP now =
      shortenAfterDedup cfg gen db cache req (normalizeURL req.url) clientIP now := by
  simp only [ShortenURL, hv, if_true]
  cases hfind : FindByOriginalURL db (normalizeURL req.url) with
  | error e => rfl
  | ok u => simp [hdedup u hfind]

lemma existsByShortCode_eq_false {db : List URL} {shortCode : String}
    (h : ∀ r ∈ db, r.shortCode = shortCode → r.isActive = false) :
    ExistsByShortCode db shortCode = false := by
  rw [ExistsByShortCode, List.any_eq_false]
  intro r hr
  by_cases hc : r.shortCode = shortCode
  · simp [hc, h r hr hc]
  · simp [hc]

/-! ## Deduplication (C3) -/

/-- C3 counterexample: with an older expired-but-active row and a newer
live row for the same target, shortening that target creates a new record
(the dedup lookup returns the older row, finds it expired, and falls
through), even though an active, unexpired entity for the target exists. -/
theorem c3_counterexample :
    rLiveAct ∈ [rExpAct, rLiveAct] ∧ rLiveAct.isActive = true ∧
    rLiveAct.IsExpired 100 = false ∧ rLiveAct.originalURL = reqDup.url ∧
    (ShortenURL (fun _ => true) (fun s => s) cfg0 (fun _ => "zzzz99")
        [rExpAct, rLiveAct] [] reqDup "" 100).2.1 ≠ [rExpAct, rLiveAct] := by
  exact ⟨by decide, rfl, rfl, rfl, by decide⟩

/-- C3 (amended): when the row the dedup lookup returns (the oldest active
row for the normalized target) is unexpired, shortening that target returns
its code unchanged and creates no record: store and cache are untouched. -/
theorem c3_dedup_returns_first_active (validateURL : String → Bool)
    (normalizeURL : String → String) (cfg : Config) (gen : Nat → String)
    (db : List URL) (cache : Cache) (req : CreateURLRequest)
    (clientIP : String) (now : Nat) (u : URL)
    (hv : validateURL req.url = true)
    (hfind : FindByOriginalURL db (normalizeURL req.url) = .ok u)
    (hlive : u.IsExpired now = false) :
    ShortenURL validateURL normalizeURL cfg gen db cache req clientIP now =
      (.ok (buildResponse cfg u), db, cache) := by
  simp only [ShortenURL, hv, if_true]
  rw [hfind]
  simp [hlive]

theorem c3_witness :
    ShortenURL (fun _ => true) (fun s => s) cfg0 (fun _ => "zzzz99") [rLiveAct] []
      reqDup "" 100 = (.ok (buildResponse cfg0 rLiveAct), [rLiveAct], []) :=
  c3_dedup_returns_first_active (fun _ => true) (fun s => s) cfg0 (fun _ => "zzzz99")
    [rLiveAct] [] reqDup "" 100 rLiveAct rfl rfl rfl

/-! ## Custom alias against an inactive owner (C1) -/

/-- C1 counterexample: the code `"mycode"` is owned only by an inactive row
(no active row owns it), yet shortening with that custom code does not
succeed and does not reuse the code: the insert is rejected by the schema's
global `UNIQUE` constraint on `short_code`, and — GORM being opened without
`TranslateError` — the duplicate key surfaces as an internal error, creating
nothing. -/
theorem c1_counterexample :
    rOldInactive.isActive = false ∧
    ExistsByShortCode [rOldInactive] "mycode" = false ∧
    ShortenURL (fun _ => true) (fun s => s) cfg0 (fun _ => "gen000") [rOldInactive] []
      reqCustom "9.9.9.9" 100 = (.error .internalError, [rOldInactive], []) := by
  exact ⟨rfl, rfl, rfl⟩

/-- C1 (amended): when every stored owner of the requested custom code is
inactive (and no active row owns it), the active-scoped pre-check passes but
the insert is rejected by the store's global unique constraint on
`short_code`: the shorten fails — with an internal error rather than
`CodeTaken`, the untranslated duplicate-key error bypassing the repository's
`ErrShortCodeTaken` branch — and creates no record. -/
theorem c1_inactive_owner_rejected (validateURL : String → Bool)
    (normalizeURL : String → String) (cfg : Config) (gen : Nat → String)
    (db : List URL) (cache : Cache) (req : CreateURLRequest)
    (clientIP : String) (now : Nat)
    (hv : validateURL req.url = true)
    (ha : req.customAlias ≠ "")
    (hva : ValidateShortCode req.customAlias = true)
    (hdedup : DedupMiss db (normalizeURL req.url) now)
    (howner : ∃ r ∈ db, r.shortCode = req.customAlias)
    (hinactive : ∀ r ∈ db, r.shortCode = req.customAlias → r.isActive = false) :
    ShortenURL validateURL normalizeURL cfg gen db cache req clientIP now =
      (.error .internalError, db, cache) := by
  rw [ShortenURL_dedupMiss hv hdedup]
  have hex : ExistsByShortCode db req.customAlias = false :=
    existsByShortCode_eq_false hinactive
  have hres : resolveShortCode gen db req = .ok req.customAlias := by
    simp [resolveShortCode, ha, hva, hex]
  have hdup : (db.any fun r =>
      r.shortCode == (newURL cfg req db req.customAlias (normalizeURL req.url)
        clientIP now).shortCode) = true := by
    rw [List.any_eq_true]
    obtain ⟨r, hr, hrc⟩ := howner
    exact ⟨r, hr, by simp [newURL, hrc]⟩
  simp only [shortenAfterDedup, hres, shortenFinish, Create, hdup, if_true]

theorem c1_witness :
    ShortenURL (fun _ => true) (fun s => s) cfg0 (fun _ => "gen000") [rOldInactive] []
      reqCustom "8.8.8.8" 200 = (.error .internalError, [rOldInactive], []) :=
  c1_inactive_owner_rejected (fun _ => true) (fun s => s) cfg0 (fun _ => "gen000")
    [rOldInactive] [] reqCustom "8.8.8.8" 200 rfl (by decide) (by decide)
    (dedupMiss_of_error rfl) (by decide) (by decide)

/-! ## Collision retry (C4) -/

lemma genCodeAux_success (db : List URL) (gen : Nat → String) :
    ∀ (K i fuel : Nat), K < fuel →
      (∀ j, j < K → ExistsByShortCode db (gen (i + j)) = true) →
      ExistsByShortCode db (gen (i + K)) = false →
      genCodeAux db gen i fuel = .ok (gen (i + K)) := by
  intro K
  induction K with
  | zero =>
    intro i fuel hf _ hfree
    obtain ⟨f, rfl⟩ : ∃ f, fuel = f + 1 := ⟨fuel - 1, by omega⟩
    simp only [Nat.add_zero] at hfree
    simp [genCodeAux, hfree]
  | succ K ih =>
    intro i fuel hf hcol hfree
    obtain ⟨f, rfl⟩ : ∃ f, fuel = f + 1 := ⟨fuel - 1, by omega⟩
    have h0 : ExistsByShortCode db (gen i) = true := by
      simpa using hcol 0 (by omega)
    have hrec := ih (i + 1) f (by omega)
      (fun j hj => by
        have h := hcol (j + 1) (by omega)
        rwa [show i + (j + 1) = i + 1 + j by omega] at h)
      (by rwa [show i + (K + 1) = i + 1 + K by omega] at hfree)
    simp only [genCodeAux, h0, if_true]
    rw [hrec, show i + 1 + K = i + (K + 1) by omega]

lemma genCodeAux_exhausted (db : List URL) (gen : Nat → String) :
    ∀ (fuel i : Nat), (∀ j, j < fuel → ExistsByShortCode db (gen (i + j)) = true) →
      genCodeAux db gen i fuel = .error .genExhausted := by
  intro fuel
  induction fuel with
  | zero => intro i _; rfl
  | succ f ih =>
    intro i hall
    have h0 : ExistsByShortCode db (gen i) = true := by
      simpa using hall 0 (by omega)
    simp only [genCodeAux, h0, if_true]
    exact ih (i + 1) fun j hj => by
      have h := hall (j + 1) (by omega)
      rwa [show i + (j + 1) = i + 1 + j by omega] at h

lemma generateUniqueShortCode_success (db : List URL) (gen : Nat → String)
    (K : Nat) (hK : K < 5)
    (hcol : ∀ j, j < K → ExistsByShortCode db (gen j) = true)
    (hfree : ExistsByShortCode db (gen K) = false) :
    generateUniqueShortCode db gen = .ok (gen K) := by
  have h := genCodeAux_success db gen K 0 5 hK
    (fun j hj => by simpa using hcol j hj) (by simpa using hfree)
  simpa [generateUniqueShortCode] using h

lemma generateUniqueShortCode_exhausted (db : List URL) (gen : Nat → String)
    (hall : ∀ j, j < 5 → ExistsByShortCode db (gen j) = true) :
    generateUniqueShortCode db gen = .error .genExhausted := by
  have h := genCodeAux_exhausted db gen 5 0 fun j hj => by simpa using hall j hj
  simpa [generateUniqueShortCode] using h

/-- C4 counterexample: the store reports the first `K = 0 < 5` candidates as
existing and reports candidate 0 (`"mycode"`) as free — the existence check is
scoped to active rows and `"mycode"` is owned only by an inactive row — yet
that candidate is not persisted: the insert is rejected by the global
`UNIQUE` constraint on `short_code`, the shorten fails (with an internal
error, GORM being opened without `TranslateError`), and no record is
created. -/
theorem c4_counterexample :
    rOldInactive.isActive = false ∧
    ExistsByShortCode [rOldInactive] "mycode" = false ∧
    ShortenURL (fun _ => true) (fun s => s) cfg0 (fun _ => "mycode") [rOldInactive] []
      reqGen "" 0 = (.error .internalError, [rOldInactive], []) := by
  exact ⟨rfl, rfl, rfl⟩

/-- C4 (amended): without a custom code, if the active-scoped existence check
reports the first `K < 5` candidates as taken and candidate `K` as free,
**and no stored row at all (active or inactive) owns candidate `K`** — so the
insert's global unique constraint also passes — the shorten persists exactly
candidate `K`; when an inactive row owns the reported-free candidate the
insert is instead rejected (the counterexample).  If all 5 candidates are
reported taken, the shorten fails with the generation-exhausted error and
neither store nor cache changes. -/
theorem c4_collision_retry (validateURL : String → Bool)
    (normalizeURL : String → String) (cfg : Config) (gen : Nat → String)
    (db : List URL) (cache : Cache) (req : CreateURLRequest)
    (clientIP : String) (now : Nat)
    (hv : validateURL req.url = true)
    (ha : req.customAlias = "")
    (hdedup : DedupMiss db (normalizeURL req.url) now) :
    (∀ K, K < 5 →
      (∀ j, j < K → ExistsByShortCode db (gen j) = true) →
      ExistsByShortCode db (gen K) = false →
      (∀ r ∈ db, r.shortCode ≠ gen K) →
      ShortenURL validateURL normalizeURL cfg gen db cache req clientIP now =
        (.ok (buildResponse cfg
            (newURL cfg req db (gen K) (normalizeURL req.url) clientIP now)),
          db ++ [newURL cfg req db (gen K) (normalizeURL req.url) clientIP now],
          cacheSet cache (gen K) (normalizeURL req.url))) ∧
    ((∀ j, j < 5 → ExistsByShortCode db (gen j) = true) →
      ShortenURL validateURL normalizeURL cfg gen db cache req clientIP now =
        (.error .genExhausted, db, cache)) := by
  constructor
  · intro K hK hcol hfree hnorow
    rw [ShortenURL_dedupMiss hv hdedup]
    have hres : resolveShortCode gen db req = .ok (gen K) := by
      rw [resolveShortCode, if_neg (by simp [ha])]
      exact generateUniqueShortCode_success db gen K hK hcol hfree
    have hnodup : (db.any fun r =>
        r.shortCode == (newURL cfg req db (gen K) (normalizeURL req.url)
          clientIP now).shortCode) = false := by
      rw [List.any_eq_false]
      intro r hr
      simpa [newURL] using hnorow r hr
    simp only [shortenAfterDedup, hres, shortenFinish, Create, hnodup,
      Bool.false_eq_true, if_false]
  · intro hall
    rw [ShortenURL_dedupMiss hv hdedup]
    have hres : resolveShortCode gen db req = .error .genExhausted := by
      rw [resolveShortCode, if_neg (by simp [ha])]
      exact generateUniqueShortCode_exhausted db gen hall
    simp only [shortenAfterDedup, hres]

theorem c4_witness :
    ShortenURL (fun _ => true) (fun s => s) cfg0 genA [rColl] [] reqGen "" 0 =
      (.ok (buildResponse cfg0
          (newURL cfg0 reqGen [rColl] "BBBB22" "https://fresh.example/z" "" 0)),
        [rColl] ++ [newURL cfg0 reqGen [rColl] "BBBB22" "https://fresh.example/z" "" 0],
        cacheSet [] "BBBB22" "https://fresh.example/z") ∧
    ShortenURL (fun _ => true) (fun s => s) cfg0 genB [rColl] [] reqGen "" 0 =
      (.error .genExhausted, [rColl], []) := by
  constructor
  · exact (c4_collision_retry (fun _ => true) (fun s => s) cfg0 genA [rColl] []
      reqGen "" 0 rfl rfl (dedupMiss_of_error rfl)).1 1 (by omega)
      (fun j hj => by
        have hj0 : j = 0 := by omega
        subst hj0
        decide)
      (by decide) (by decide)
  · exact (c4_collision_retry (fun _ => true) (fun s => s) cfg0 genB [rColl] []
      reqGen "" 0 rfl rfl (dedupMiss_of_error rfl)).2
      (fun j hj => by exact (by decide : ExistsByShortCode [rColl] "AAAA11" = true))

/-! ## Custom alias validation rule (C6) -/

lemma validateShortCode_spec (code : String) (h : ValidateShortCode code = true) :
    2 ≤ code.length ∧ code.length ≤ 50 ∧ code.toList.all isShortCodeChar = true := by
  rw [ValidateShortCode] at h
  split_ifs at h with hc
  push_neg at hc
  exact ⟨hc.1, hc.2, h⟩

/-- C6 counterexample: the custom code `"my-link"` is accepted (the shorten
succeeds and persists it), yet its hyphen lies outside the 62-symbol base62
alphabet — acceptance is governed by `validator.ValidateShortCode`
(`[a-zA-Z0-9_-]`, length 2-50), not by the generator's charset/length rule. -/
theorem c6_counterexample :
    (ShortenURL (fun _ => true) (fun s => s) cfg0 (fun _ => "unused") [] []
        reqAlias "" 0).1 =
      .ok (buildResponse cfg0
        (newURL cfg0 reqAlias [] "my-link" "https://six.example/a" "" 0)) ∧
    '-' ∈ "my-link".toList ∧ base62Chars.contains '-' = false := by
  exact ⟨rfl, by decide, by decide⟩

/-- C6 (amended): every custom code the shorten operation accepts past its
validation step satisfies `validator.ValidateShortCode` — length between 2
and 50 and characters in `[a-zA-Z0-9_-]` (not the generator's base62
charset/length rule). -/
theorem c6_accepted_alias_rule (validateURL : String → Bool)
    (normalizeURL : String → String) (cfg : Config) (gen : Nat → String)
    (db : List URL) (cache : Cache) (req : CreateURLRequest)
    (clientIP : String) (now : Nat)
    (hv : validateURL req.url = true)
    (ha : req.customAlias ≠ "")
    (hdedup : DedupMiss db (normalizeURL req.url) now)
    (hres : (ShortenURL validateURL normalizeURL cfg gen db cache req
      clientIP now).1 ≠ .error .validationError) :
    ValidateShortCode req.customAlias = true ∧
    2 ≤ req.customAlias.length ∧ req.customAlias.length ≤ 50 ∧
    req.customAlias.toList.all isShortCodeChar = true := by
  have hva : ValidateShortCode req.customAlias = true := by
    by_contra hna
    apply hres
    rw [ShortenURL_dedupMiss hv hdedup]
    have hcode : resolveShortCode gen db req = .error .validationError := by
      simp [resolveShortCode, ha, hna]
    simp [shortenAfterDedup, hcode]
  obtain ⟨h1, h2, h3⟩ := validateShortCode_spec _ hva
  exact ⟨hva, h1, h2, h3⟩

theorem c6_witness :
    ValidateShortCode "good_one" = true ∧ 2 ≤ ("good_one" : String).length :=
  have h := c6_accepted_alias_rule (fun _ => true) (fun s => s) cfg0 (fun _ => "u1")
    [] [] reqGood "" 0 rfl (by decide) (dedupMiss_of_error rfl) (by decide)
  ⟨h.1, h.2.1⟩

/-! ## URL normalization idempotence (C10) -/

lemma toLowerChar_idem (c : Char) : toLowerChar (toLowerChar c) = toLowerChar c := by
  cases hf : lowerTable.find? (fun p => p.1 == c) with
  | none => simp [toLowerChar, hf]
  | some p =>
    have hmem := List.mem_of_find?_eq_some hf
    have hnone :=
      (by decide : ∀ q ∈ lowerTable, lowerTable.find? (fun r => r.1 == q.2) = none) p hmem
    simp [toLowerChar, hf, hnone]

lemma isSchemeChar_toLowerChar (c : Char) (h : isSchemeChar c = true) :
    isSchemeChar (toLowerChar c) = true := by
  cases hf : lowerTable.find? (fun p => p.1 == c) with
  | none => simpa [toLowerChar, hf] using h
  | some p =>
    have hmem := List.mem_of_find?_eq_some hf
    have hq := (by decide : ∀ q ∈ lowerTable, isSchemeChar q.2 = true) p hmem
    simpa [toLowerChar, hf] using hq

lemma isHostChar_toLowerChar (c : Char) (h : isHostChar c = true) :
    isHostChar (toLowerChar c) = true := by
  cases hf : lowerTable.find? (fun p => p.1 == c) with
  | none => simpa [toLowerChar, hf] using h
  | some p =>
    have hmem := List.mem_of_find?_eq_some hf
    have hq := (by decide : ∀ q ∈ lowerTable, isHostChar q.2 = true) p hmem
    simpa [toLowerChar, hf] using hq

lemma strToLower_idem (l : List Char) : strToLower (strToLower l) = strToLower l := by
  induction l with
  | nil => rfl
  | cons c t ih => simp [strToLower, toLowerChar_idem, List.map_map] at ih ⊢

lemma strToLower_ne_nil {l : List Char} (h : l ≠ []) : strToLower l ≠ [] := by
  simpa [strToLower] using h

lemma strToLower_all_scheme {l : List Char} (h : l.all isSchemeChar = true) :
    (strToLower l).all isSchemeChar = true := by
  rw [List.all_eq_true] at h ⊢
  intro c hc
  rw [strToLower, List.mem_map] at hc
  obtain ⟨a, ha, rfl⟩ := hc
  exact isSchemeChar_toLowerChar a (h a ha)

lemma strToLower_all_host {l : List Char} (h : l.all isHostChar = true) :
    (strToLower l).all isHostChar = true := by
  rw [List.all_eq_true] at h ⊢
  intro c hc
  rw [strToLower, List.mem_map] at hc
  obtain ⟨a, ha, rfl⟩ := hc
  exact isHostChar_toLowerChar a (h a ha)

lemma trimSlashSuffix_all {p : List Char}
    (h : p.all isPathChar = true) : (trimSlashSuffix p).all isPathChar = true := by
  rw [List.all_eq_true] at h ⊢
  rw [trimSlashSuffix]
  split_ifs
  · intro c hc
    exact h c ((List.dropLast_sublist p).subset hc)
  · exact h

lemma trimSlashSuffix_head {p : List Char}
    (h : p = [] ∨ p.head? = some '/') :
    trimSlashSuffix p = [] ∨ (trimSlashSuffix p).head? = some '/' := by
  rcases h with h | h
  · subst h; left; rfl
  · cases p with
    | nil => left; rfl
    | cons c t =>
      have hc : c = '/' := by simpa using h
      subst hc
      rw [trimSlashSuffix]
      split_ifs
      · cases t with
        | nil => left; rfl
        | cons d u => right; simp
      · right; rfl

lemma trimSlashSuffix_idem {p : List Char}
    (h : ¬ (p.getLast? = some '/' ∧ p.dropLast.getLast? = some '/')) :
    trimSlashSuffix (trimSlashSuffix p) = trimSlashSuffix p := by
  by_cases h1 : p.getLast? = some '/'
  · have hinner : trimSlashSuffix p = p.dropLast := by
      rw [trimSlashSuffix, if_pos h1]
    rw [hinner, trimSlashSuffix, if_neg fun h2 => h ⟨h1, h2⟩]
  · have hinner : trimSlashSuffix p = p := by
      rw [trimSlashSuffix, if_neg h1]
    rw [hinner]
    exact hinner

lemma splitSchemeSep_cons (c : Char) (rest : List Char) :
    splitSchemeSep (c :: rest) =
      if c = ':' ∧ rest.take 2 = ['/', '/'] then some ([], rest.drop 2)
      else (splitSchemeSep rest).map fun p => (c :: p.1, p.2) := rfl

lemma splitSchemeSep_append (a b : List Char) (ha : ∀ c ∈ a, c ≠ ':') :
    splitSchemeSep (a ++ (schemeSep ++ b)) = some (a, b) := by
  induction a with
  | nil =>
    show splitSchemeSep (':' :: ('/' :: '/' :: b)) = some ([], b)
    rw [splitSchemeSep_cons, if_pos ⟨rfl, rfl⟩]
    rfl
  | cons c a ih =>
    have hc : c ≠ ':' := ha c (List.mem_cons_self _ _)
    show splitSchemeSep (c :: (a ++ (schemeSep ++ b))) = some (c :: a, b)
    rw [splitSchemeSep_cons, if_neg fun hand => hc hand.1,
      ih fun x hx => ha x (List.mem_cons_of_mem _ hx)]
    rfl

lemma splitSchemeSep_append_isSome (a b : List Char) :
    (splitSchemeSep (a ++ (schemeSep ++ b))).isSome = true := by
  induction a with
  | nil =>
    show (splitSchemeSep (':' :: ('/' :: '/' :: b))).isSome = true
    rw [splitSchemeSep_cons, if_pos ⟨rfl, rfl⟩]
    rfl
  | cons c a ih =>
    show (splitSchemeSep (c :: (a ++ (schemeSep ++ b)))).isSome = true
    rw [splitSchemeSep_cons]
    split_ifs with h
    · rfl
    · simpa using ih

lemma takeWhile_append_all {p : Char → Bool} (a b : List Char)
    (ha : ∀ c ∈ a, p c = true) : (a ++ b).takeWhile p = a ++ b.takeWhile p := by
  induction a with
  | nil => simp
  | cons c a ih =>
    have hc := ha c (List.mem_cons_self _ _)
    simp [List.takeWhile_cons, hc, ih fun x hx => ha x (List.mem_cons_of_mem _ hx)]

lemma dropWhile_append_all {p : Char → Bool} (a b : List Char)
    (ha : ∀ c ∈ a, p c = true) : (a ++ b).dropWhile p = b.dropWhile p := by
  induction a with
  | nil => simp
  | cons c a ih =>
    have hc := ha c (List.mem_cons_self _ _)
    simp [List.dropWhile_cons, hc, ih fun x hx => ha x (List.mem_cons_of_mem _ hx)]

lemma dropWhile_ne_slash_head (l : List Char) :
    l.dropWhile (fun c => c ≠ '/') = [] ∨
      (l.dropWhile fun c => c ≠ '/').head? = some '/' := by
  induction l with
  | nil => left; rfl
  | cons c t ih =>
    by_cases hc : c = '/'
    · right; simp [List.dropWhile_cons, hc]
    · simpa [List.dropWhile_cons, hc] using ih

lemma isHostChar_ne_slash {c : Char} (h : isHostChar c = true) :
    (fun c => decide (c ≠ '/')) c = true := by
  simp only [decide_eq_true_eq]
  intro hs
  subst hs
  exact absurd h (by decide)

lemma parseSimple_of_wf (scheme host path : List Char)
    (hs : scheme ≠ []) (hsc : scheme.all isSchemeChar = true)
    (hh : host ≠ []) (hhc : host.all isHostChar = true)
    (hpc : path.all isPathChar = true)
    (hhead : path = [] ∨ path.head? = some '/') :
    parseSimple (scheme ++ (schemeSep ++ (host ++ path))) =
      some (scheme, host, path) := by
  have hnc : ∀ c ∈ scheme, c ≠ ':' := by
    intro c hc hcol
    have h := List.all_eq_true.mp hsc c hc
    subst hcol
    exact absurd h (by decide)
  have hhs : ∀ c ∈ host, (fun c => decide (c ≠ '/')) c = true := fun c hc =>
    isHostChar_ne_slash (List.all_eq_true.mp hhc c hc)
  have htake : ((host ++ path).takeWhile fun c => c ≠ '/') = host := by
    rw [takeWhile_append_all _ _ hhs]
    rcases hhead with h | h
    · simp [h]
    · cases path with
      | nil => simp
      | cons c t =>
        have hc : c = '/' := by simpa using h
        subst hc
        simp [List.takeWhile_cons]
  have hdrop : ((host ++ path).dropWhile fun c => c ≠ '/') = path := by
    rw [dropWhile_append_all _ _ hhs]
    rcases hhead with h | h
    · simp [h]
    · cases path with
      | nil => simp
      | cons c t =>
        have hc : c = '/' := by simpa using h
        subst hc
        simp [List.dropWhile_cons]
  simp only [parseSimple, splitSchemeSep_append _ _ hnc, htake, hdrop]
  rw [if_pos ⟨hs, hsc, hh, hhc, hpc⟩]

lemma parseSimple_inv (raw scheme host path : List Char)
    (hp : parseSimple raw = some (scheme, host, path)) :
    scheme ≠ [] ∧ scheme.all isSchemeChar = true ∧ host ≠ [] ∧
      host.all isHostChar = true ∧ path.all isPathChar = true ∧
      (path = [] ∨ path.head? = some '/') := by
  cases hsp : splitSchemeSep raw with
  | none =>
    have hnone : parseSimple raw = none := by rw [parseSimple, hsp]
    rw [hnone] at hp
    exact absurd hp (by simp)
  | some p =>
    obtain ⟨s0, rest⟩ := p
    have heq : parseSimple raw =
        if s0 ≠ [] ∧ s0.all isSchemeChar = true ∧
            (rest.takeWhile fun c => c ≠ '/') ≠ [] ∧
            (rest.takeWhile fun c => c ≠ '/').all isHostChar = true ∧
            (rest.dropWhile fun c => c ≠ '/').all isPathChar = true then
          some (s0, rest.takeWhile fun c => c ≠ '/', rest.dropWhile fun c => c ≠ '/')
        else none := by
      rw [parseSimple, hsp]
    rw [heq] at hp
    split_ifs at hp with hcond
    obtain ⟨h1, h2, h3, h4, h5⟩ := hcond
    obtain ⟨rfl, rfl, rfl⟩ : s0 = scheme ∧
        (rest.takeWhile fun c => c ≠ '/') = host ∧
        (rest.dropWhile fun c => c ≠ '/') = path := by
      simpa using hp
    exact ⟨h1, h2, h3, h4, h5, dropWhile_ne_slash_head rest⟩

/-- C10 counterexample: each application of `NormalizeURL` strips exactly one
trailing slash, so a path ending in `"//"` normalizes differently under one
and two applications — `NormalizeURL` is not idempotent. -/
theorem c10_counterexample :
    NormalizeURL "http://example.com//".toList = "http://example.com/".toList ∧
    NormalizeURL "http://example.com/".toList = "http://example.com".toList ∧
    NormalizeURL (NormalizeURL "http://example.com//".toList) ≠
      NormalizeURL "http://example.com//".toList := by
  exact ⟨by decide, by decide, by decide⟩

/-- C10 (amended): `NormalizeURL` is idempotent on every input of the
modelled `scheme://host/path` fragment whose path does not end in a double
slash (on a path ending `"//"` each application removes one slash, which is
exactly what the counterexample exhibits). -/
theorem c10_normalize_idempotent (raw scheme host path : List Char)
    (hp : parseSimple (withScheme raw) = some (scheme, host, path))
    (hslash : ¬ (path.getLast? = some '/' ∧ path.dropLast.getLast? = some '/')) :
    NormalizeURL (NormalizeURL raw) = NormalizeURL raw := by
  obtain ⟨hs, hsc, hh, hhc, hpc, hhead⟩ := parseSimple_inv _ _ _ _ hp
  have hN : NormalizeURL raw =
      strToLower scheme ++ schemeSep ++ strToLower host ++ trimSlashSuffix path := by
    rw [NormalizeURL, hp]
  have hassoc : strToLower scheme ++ schemeSep ++ strToLower host ++
        trimSlashSuffix path =
      strToLower scheme ++ (schemeSep ++ (strToLower host ++ trimSlashSuffix path)) := by
    simp [List.append_assoc]
  have hws : withScheme (NormalizeURL raw) = NormalizeURL raw := by
    rw [withScheme, if_pos]
    rw [hN, hassoc]
    exact splitSchemeSep_append_isSome _ _
  have hp2 : parseSimple (withScheme (NormalizeURL raw)) =
      some (strToLower scheme, strToLower host, trimSlashSuffix path) := by
    rw [hws, hN, hassoc]
    exact parseSimple_of_wf _ _ _ (strToLower_ne_nil hs) (strToLower_all_scheme hsc)
      (strToLower_ne_nil hh) (strToLower_all_host hhc) (trimSlashSuffix_all hpc)
      (trimSlashSuffix_head hhead)
  have hfinal : NormalizeURL (NormalizeURL raw) =
      strToLower (strToLower scheme) ++ schemeSep ++ strToLower (strToLower host) ++
        trimSlashSuffix (trimSlashSuffix path) := by
    rw [NormalizeURL, hp2]
  rw [hfinal, strToLower_idem, strToLower_idem, trimSlashSuffix_idem hslash, hN]

theorem c10_witness :
    parseSimple (withScheme "HTTP://Example.COM/Path/".toList) =
      some ("HTTP".toList, "Example.COM".toList, "/Path/".toList) ∧
    NormalizeURL (NormalizeURL "HTTP://Example.COM/Path/".toList) =
      NormalizeURL "HTTP://Example.COM/Path/".toList :=
  ⟨by decide,
    c10_normalize_idempotent "HTTP://Example.COM/Path/".toList "HTTP".toList
      "Example.COM".toList "/Path/".toList (by decide) (by decide)⟩

end UrlShortener
